import Mathlib

/-!
Verification development for the EnvMCP server (src/env_mcp/server.py).

The two core operations are translated as executable Lean functions:

* secure_shell_executor (command, dry_run): the guarded command executor.
  The host process facility (subprocess.run) is modelled as an oracle of
  type SpawnFun given to the function; Python strings are lists of
  characters.  The executor returns its classified result together with
  the argument vector of the child process it spawned, if any.

* read_error_file (file_path, max_lines): the bounded tail reader.  The
  filesystem is modelled as a map from paths to entries; a regular file
  carries its raw bytes and an optional I/O fault that makes reads raise.
  The reader returns its classified result together with the bytes it
  read from the file, so that the memory bound is a statement about the
  function itself.

Text helpers mirror the CPython semantics the source relies on:
str.splitlines (pySplitlines), str.split with no separator (pySplit),
the substring test of the in operator (hasSub), slicing from the end
(pyLastSlice), the newline join (joinNL), and bytes.decode with
errors set to replace (utf8DecodeReplace).
-/

/-- Code points that Python str.splitlines treats as line boundaries. -/
def isLineBreak (c : Nat) : Bool :=
  [10, 11, 12, 13, 28, 29, 30, 133, 8232, 8233].contains c

/-- Python str.splitlines on a list of code points; a CR LF pair counts as
one boundary and a trailing boundary does not create an empty final line. -/
def pySplitlines : List Nat → List (List Nat)
  | [] => []
  | 13 :: 10 :: rest => [] :: pySplitlines rest
  | c :: rest =>
    if isLineBreak c then
      [] :: pySplitlines rest
    else
      match pySplitlines rest with
      | [] => [[c]]
      | l :: ls => (c :: l) :: ls

/-- Python str.join with a newline separator, on lists of code points. -/
def joinNL : List (List Nat) → List Nat
  | [] => []
  | l :: ls =>
    l ++ match ls with
         | [] => []
         | _ :: _ => 10 :: joinNL ls

/-- Python slicing xs[-k:]: for k = 0 this is the whole list, otherwise
the last k elements (all of them when k exceeds the length). -/
def pyLastSlice (k : Nat) (xs : List α) : List α :=
  if k = 0 then xs else xs.drop (xs.length - k)

/-- A UTF-8 continuation byte. -/
def cont (b : Nat) : Bool := 128 ≤ b && b ≤ 191

/-- Valid second byte of a three-byte sequence headed by b (excludes
overlong encodings for E0 and surrogates for ED). -/
def cont2 (b b2 : Nat) : Bool :=
  if b = 224 then 160 ≤ b2 && b2 ≤ 191
  else if b = 237 then 128 ≤ b2 && b2 ≤ 159
  else cont b2

/-- Valid second byte of a four-byte sequence headed by b (excludes
overlong encodings for F0 and code points beyond U+10FFFF for F4). -/
def cont3 (b b2 : Nat) : Bool :=
  if b = 240 then 144 ≤ b2 && b2 ≤ 191
  else if b = 244 then 128 ≤ b2 && b2 ≤ 143
  else cont b2

/-- CPython bytes.decode for UTF-8 with errors set to replace: each
maximal malformed subsequence is replaced by U+FFFD (65533) and decoding
continues; the function is total. -/
def utf8DecodeReplace : List Nat → List Nat
  | [] => []
  | [b] =>
    if b < 128 then [b] else [65533]
  | [b, b2] =>
    if b < 128 then b :: utf8DecodeReplace [b2]
    else if b < 194 then 65533 :: utf8DecodeReplace [b2]
    else if b < 224 then
      if cont b2 then [(b - 192) * 64 + (b2 - 128)]
      else 65533 :: utf8DecodeReplace [b2]
    else if b < 240 then
      if cont2 b b2 then [65533]
      else 65533 :: utf8DecodeReplace [b2]
    else if b < 245 then
      if cont3 b b2 then [65533]
      else 65533 :: utf8DecodeReplace [b2]
    else 65533 :: utf8DecodeReplace [b2]
  | [b, b2, b3] =>
    if b < 128 then b :: utf8DecodeReplace [b2, b3]
    else if b < 194 then 65533 :: utf8DecodeReplace [b2, b3]
    else if b < 224 then
      if cont b2 then ((b - 192) * 64 + (b2 - 128)) :: utf8DecodeReplace [b3]
      else 65533 :: utf8DecodeReplace [b2, b3]
    else if b < 240 then
      if cont2 b b2 then
        if cont b3 then [(b - 224) * 4096 + (b2 - 128) * 64 + (b3 - 128)]
        else 65533 :: utf8DecodeReplace [b3]
      else 65533 :: utf8DecodeReplace [b2, b3]
    else if b < 245 then
      if cont3 b b2 then
        if cont b3 then [65533]
        else 65533 :: utf8DecodeReplace [b3]
      else 65533 :: utf8DecodeReplace [b2, b3]
    else 65533 :: utf8DecodeReplace [b2, b3]
  | b :: b2 :: b3 :: b4 :: rest =>
    if b < 128 then b :: utf8DecodeReplace (b2 :: b3 :: b4 :: rest)
    else if b < 194 then 65533 :: utf8DecodeReplace (b2 :: b3 :: b4 :: rest)
    else if b < 224 then
      if cont b2 then ((b - 192) * 64 + (b2 - 128)) :: utf8DecodeReplace (b3 :: b4 :: rest)
      else 65533 :: utf8DecodeReplace (b2 :: b3 :: b4 :: rest)
    else if b < 240 then
      if cont2 b b2 then
        if cont b3 then
          ((b - 224) * 4096 + (b2 - 128) * 64 + (b3 - 128)) :: utf8DecodeReplace (b4 :: rest)
        else 65533 :: utf8DecodeReplace (b3 :: b4 :: rest)
      else 65533 :: utf8DecodeReplace (b2 :: b3 :: b4 :: rest)
    else if b < 245 then
      if cont3 b b2 then
        if cont b3 then
          if cont b4 then
            ((b - 240) * 262144 + (b2 - 128) * 4096 + (b3 - 128) * 64 + (b4 - 128)) ::
              utf8DecodeReplace rest
          else 65533 :: utf8DecodeReplace (b4 :: rest)
        else 65533 :: utf8DecodeReplace (b3 :: b4 :: rest)
      else 65533 :: utf8DecodeReplace (b2 :: b3 :: b4 :: rest)
    else 65533 :: utf8DecodeReplace (b2 :: b3 :: b4 :: rest)

/-- Characters Python str.split with no separator treats as whitespace. -/
def pyIsSpace (c : Char) : Bool :=
  [9, 10, 11, 12, 13, 28, 29, 30, 31, 32, 133, 160, 5760,
   8192, 8193, 8194, 8195, 8196, 8197, 8198, 8199, 8200, 8201, 8202,
   8232, 8233, 8239, 8287, 12288].contains c.toNat

/-- Python str.split with no separator: maximal runs of non-whitespace
characters, with no empty tokens. -/
def pySplit : List Char → List (List Char)
  | [] => []
  | [c] => if pyIsSpace c then [] else [[c]]
  | c :: d :: rest =>
    if pyIsSpace c then pySplit (d :: rest)
    else if pyIsSpace d then [c] :: pySplit rest
    else
      match pySplit (d :: rest) with
      | [] => [[c]]
      | t :: ts => (c :: t) :: ts

/-- Boolean prefix test on character lists. -/
def isPre : List Char → List Char → Bool
  | [], _ => true
  | _ :: _, [] => false
  | a :: p2, b :: s2 => a == b && isPre p2 s2

/-- Python substring membership (the in operator on str): hasSub s p is
true when p occurs contiguously inside s. -/
def hasSub : List Char → List Char → Bool
  | [], p => p.isEmpty
  | c :: s2, p => isPre p (c :: s2) || hasSub s2 p

/-- The denylist of the source, line 97: a list of forbidden substrings.
The backtick is written as Char.ofNat 96. -/
def forbiddenPatterns : List (List Char) :=
  [[';'], ['&', '&'], ['|', '|'], ['|'], ['>'], ['<'], [Char.ofNat 96], ['$', '(']]

/-- The wall-clock timeout the source passes to subprocess.run. -/
def timeoutSeconds : Nat := 30

/-- Outcome of one attempt of the host to run an argument vector:
the child completed with an exit code and captured output, the child
was killed after running into the timeout, or process creation itself
raised (executable not found, permission denied) so no child ever ran.
Messages are the str of the raised exception. -/
inductive SpawnOutcome where
  | completed (returncode : Int) (stdout stderr : List Char)
  | timedOut (msg : List Char)
  | spawnFailed (msg : List Char)

/-- The host process facility: argument vector and timeout to outcome. -/
abbrev SpawnFun := List (List Char) → Nat → SpawnOutcome

/-- Result variants of the executor, one per return statement of the
source function secure_shell_executor. -/
inductive ExecutionResult where
  | dryRunPreview (command : List Char)
  | blocked (command : List Char)
  | success (stdout : List Char)
  | failure (exitCode : Int) (stderr : List Char)
  | executionError (message : List Char)
deriving DecidableEq

/-- Message of the IndexError CPython raises when subprocess.run is
given an empty argument list; no process is created in that case. -/
def emptyArgvMessage : List Char := "list index out of range".toList

/-- Translation of secure_shell_executor (source lines 89 to 109).
Returns the classified result and the argument vector of the child
process that was spawned, or none when no process was created. -/
def secure_shell_executor (spawn : SpawnFun) (command : List Char) (dry_run : Bool) :
    ExecutionResult × Option (List (List Char)) :=
  if dry_run then (.dryRunPreview command, none)
  else if forbiddenPatterns.any (fun p => hasSub command p) then (.blocked command, none)
  else
    match pySplit command with
    | [] => (.executionError emptyArgvMessage, none)
    | t :: ts =>
      match spawn (t :: ts) timeoutSeconds with
      | .completed rc out err =>
        if rc = 0 then (.success out, some (t :: ts))
        else (.failure rc err, some (t :: ts))
      | .timedOut m => (.executionError m, some (t :: ts))
      | .spawnFailed m => (.executionError m, none)

/-- The exact text the source renders for each executor result. -/
def renderResult : ExecutionResult → List Char
  | .dryRunPreview c => "[DRY RUN] Would execute: ".toList ++ c
  | .blocked c => "Command blocked due to detected shell metacharacters: ".toList ++ c
  | .success out => "Success:\n".toList ++ out
  | .failure rc err => "Failure (Exit Code ".toList ++ (toString rc).toList ++ "):\n".toList ++ err
  | .executionError m => "Error executing command: ".toList ++ m

/-- A filesystem entry: a regular file with raw bytes and an optional
I/O fault whose message is raised on read, or a non-regular entry such
as a directory. -/
inductive FsEntry where
  | file (content : List Nat) (fault : Option (List Nat))
  | dir
deriving DecidableEq

/-- The filesystem as seen through already-expanded paths. -/
abbrev FileSys := String → Option FsEntry

/-- Result variants of the tail reader, one per return statement of the
source function read_error_file. -/
inductive TailResult where
  | notFound (path : String)
  | notAFile (path : String)
  | text (s : List Nat)
  | readError (msg : List Nat)
deriving DecidableEq

/-- A run of the tail reader: its result together with the file bytes it
read from disk ([] when nothing was read). -/
structure TailRun where
  result : TailResult
  readBytes : List Nat
deriving DecidableEq

/-- Translation of read_error_file (source lines 111 to 155): existence
and regular-file checks, then either a full read for files under the
1 MiB threshold, or a seek-based read of max_lines * 200 trailing bytes
with the first decoded line dropped when the seek point was not the
start of the file. -/
def read_error_file (fs : FileSys) (file_path : String) (max_lines : Nat) : TailRun :=
  match fs file_path with
  | none => ⟨.notFound file_path, []⟩
  | some .dir => ⟨.notAFile file_path, []⟩
  | some (.file content fault) =>
    match fault with
    | some msg => ⟨.readError msg, []⟩
    | none =>
      let size := content.length
      if size < 1024 * 1024 then
        let text := utf8DecodeReplace content
        let lines := pySplitlines text
        if max_lines < lines.length then
          ⟨.text (joinNL (pyLastSlice max_lines lines)), content⟩
        else
          ⟨.text text, content⟩
      else
        let read_size := max_lines * 200
        let tailBytes := content.drop (size - read_size)
        let text := utf8DecodeReplace tailBytes
        let lines := pySplitlines text
        let lines2 := if read_size < size ∧ lines ≠ [] then lines.drop 1 else lines
        ⟨.text (joinNL (pyLastSlice max_lines lines2)), tailBytes⟩

/-- A spawn oracle whose child always succeeds with empty output. -/
def spawnAlways0 : SpawnFun := fun _ _ => .completed 0 [] []

/-- Fixture: a filesystem with one small log file holding a\nb\nc. -/
def fsSmall : FileSys := fun p =>
  if p = "small.log" then some (.file [97, 10, 98, 10, 99] none) else none

/-- Fixture: a filesystem with one log file of 1 MiB of newlines. -/
def fsBig : FileSys := fun p =>
  if p = "big.log" then some (.file (List.replicate 1048576 10) none) else none

/-- Fixture: a filesystem with a directory and a faulty file. -/
def fsMixed : FileSys := fun p =>
  if p = "adir" then some .dir
  else if p = "bad.log" then some (.file [104, 105] (some [101, 114, 114])) else none

theorem sl_nil : pySplitlines [] = [] := rfl

theorem sl_crlf (rest : List Nat) : pySplitlines (13 :: 10 :: rest) = [] :: pySplitlines rest := rfl

theorem sl_brk (c : Nat) (rest : List Nat) (h : isLineBreak c = true) (hc : c ≠ 13) :
    pySplitlines (c :: rest) = [] :: pySplitlines rest := by
  cases rest with
  | nil => simp [pySplitlines, h, hc]
  | cons d r => simp [pySplitlines, h, hc]

theorem sl_cr_not_lf (rest : List Nat) (hno : ∀ r, rest ≠ 10 :: r) :
    pySplitlines (13 :: rest) = [] :: pySplitlines rest := by
  have h13 : isLineBreak 13 = true := by decide
  cases rest with
  | nil => simp [pySplitlines, h13]
  | cons d r =>
    have hd : d ≠ 10 := by intro h; exact hno r (by rw [h])
    simp [pySplitlines, hd, h13]

theorem sl_chr (c : Nat) (rest : List Nat) (h : isLineBreak c = false) :
    pySplitlines (c :: rest) =
      (match pySplitlines rest with
       | [] => [[c]]
       | l :: ls => (c :: l) :: ls) := by
  have hc : c ≠ 13 := by intro e; subst e; simp [isLineBreak] at h
  cases rest with
  | nil => simp [pySplitlines, h, hc]
  | cons d r => simp [pySplitlines, h, hc]

theorem sl_cons_struct (c : Nat) (rest : List Nat) :
    ∃ l ls, pySplitlines (c :: rest) = l :: ls := by
  by_cases hb : isLineBreak c = true
  · by_cases hc : c = 13
    · subst hc
      cases rest with
      | nil => exact ⟨[], _, sl_cr_not_lf [] (by intro r h; cases h)⟩
      | cons d r =>
        by_cases hd : d = 10
        · subst hd; exact ⟨[], _, sl_crlf r⟩
        · refine ⟨[], _, sl_cr_not_lf (d :: r) ?_⟩
          intro r' h
          injection h with h1 h2
          exact hd h1
    · exact ⟨[], _, sl_brk c rest hb hc⟩
  · rw [sl_chr c rest (by simpa using hb)]
    cases pySplitlines rest with
    | nil => exact ⟨[c], [], rfl⟩
    | cons l ls => exact ⟨c :: l, ls, rfl⟩

theorem sl_eq_nil_iff (s : List Nat) : pySplitlines s = [] ↔ s = [] := by
  cases s with
  | nil => simp [sl_nil]
  | cons c rest =>
    obtain ⟨l, ls, h⟩ := sl_cons_struct c rest
    simp [h]

theorem sl_length_mono_aux :
    ∀ n X Y, X.length ≤ n →
      (pySplitlines Y).length ≤ (pySplitlines (X ++ Y)).length := by
  intro n
  induction n with
  | zero =>
    intro X Y hX
    have : X = [] := List.length_eq_zero.mp (Nat.le_zero.mp hX)
    subst this; simp
  | succ n ih =>
    intro X Y hX
    cases X with
    | nil => simp
    | cons c X' =>
      by_cases hb : isLineBreak c = true
      · by_cases hc : c = 13
        · subst hc
          cases X' with
          | nil =>
            cases Y with
            | nil => simp [sl_nil]
            | cons d Y' =>
              by_cases hd : d = 10
              · subst hd
                rw [List.cons_append, List.nil_append, sl_crlf]
                rw [sl_brk 10 Y' (by decide) (by decide)]
              · rw [List.cons_append, List.nil_append,
                    sl_cr_not_lf (d :: Y') (by intro r h; injection h with h1 _; exact hd h1)]
                simp
          | cons d X'' =>
            by_cases hd : d = 10
            · subst hd
              rw [List.cons_append, List.cons_append, sl_crlf]
              have := ih X'' Y (by simp at hX; omega)
              simpa using Nat.le_succ_of_le this
            · rw [List.cons_append,
                  sl_cr_not_lf (d :: X'' ++ Y)
                    (by intro r h; rw [List.cons_append] at h; injection h with h1 _; exact hd h1)]
              have := ih (d :: X'') Y (by simpa using hX)
              rw [List.cons_append] at this
              simpa using Nat.le_succ_of_le this
        · rw [List.cons_append, sl_brk c (X' ++ Y) hb hc]
          have := ih X' Y (by simp at hX; omega)
          simpa using Nat.le_succ_of_le this
      · rw [List.cons_append, sl_chr c (X' ++ Y) (by simpa using hb)]
        have hih := ih X' Y (by simp at hX; omega)
        cases hsl : pySplitlines (X' ++ Y) with
        | nil =>
          have : X' ++ Y = [] := (sl_eq_nil_iff _).mp hsl
          have hY : Y = [] := (List.append_eq_nil.mp this).2
          subst hY; simp [sl_nil]
        | cons l ls =>
          rw [hsl] at hih
          simpa using hih

theorem sl_drop_one_suffix_aux :
    ∀ n X Y, X.length ≤ n →
      (pySplitlines Y).drop 1 <:+ pySplitlines (X ++ Y) := by
  intro n
  induction n with
  | zero =>
    intro X Y hX
    have : X = [] := List.length_eq_zero.mp (Nat.le_zero.mp hX)
    subst this
    simpa using List.drop_suffix 1 (pySplitlines Y)
  | succ n ih =>
    intro X Y hX
    cases X with
    | nil => simpa using List.drop_suffix 1 (pySplitlines Y)
    | cons c X' =>
      by_cases hb : isLineBreak c = true
      · by_cases hc : c = 13
        · subst hc
          cases X' with
          | nil =>
            cases Y with
            | nil => simp [sl_nil]
            | cons d Y' =>
              by_cases hd : d = 10
              · subst hd
                rw [List.cons_append, List.nil_append, sl_crlf,
                    sl_brk 10 Y' (by decide) (by decide)]
                simp only [List.drop_succ_cons, List.drop_zero]
                exact List.suffix_cons ([] : List Nat) (pySplitlines Y')
              · rw [List.cons_append, List.nil_append,
                    sl_cr_not_lf (d :: Y') (by intro r h; injection h with h1 _; exact hd h1)]
                exact (List.drop_suffix 1 _).trans (List.suffix_cons _ _)
          | cons d X'' =>
            by_cases hd : d = 10
            · subst hd
              rw [List.cons_append, List.cons_append, sl_crlf]
              exact (ih X'' Y (by simp at hX; omega)).trans (List.suffix_cons _ _)
            · rw [List.cons_append,
                  sl_cr_not_lf (d :: X'' ++ Y)
                    (by intro r h; rw [List.cons_append] at h; injection h with h1 _; exact hd h1)]
              have := ih (d :: X'') Y (by simpa using hX)
              rw [List.cons_append] at this
              exact this.trans (List.suffix_cons _ _)
        · rw [List.cons_append, sl_brk c (X' ++ Y) hb hc]
          exact (ih X' Y (by simp at hX; omega)).trans (List.suffix_cons _ _)
      · rw [List.cons_append, sl_chr c (X' ++ Y) (by simpa using hb)]
        have hih := ih X' Y (by simp at hX; omega)
        cases hsl : pySplitlines (X' ++ Y) with
        | nil =>
          have : X' ++ Y = [] := (sl_eq_nil_iff _).mp hsl
          have hY : Y = [] := (List.append_eq_nil.mp this).2
          subst hY; simp [sl_nil]
        | cons l ls =>
          rw [hsl] at hih
          rcases List.suffix_cons_iff.mp hih with heq | htail
          · exfalso
            have hlen := sl_length_mono_aux X'.length X' Y le_rfl
            rw [hsl] at hlen
            have h1 : ((pySplitlines Y).drop 1).length = (pySplitlines Y).length - 1 := by
              simp
            rw [heq] at h1
            simp at h1 hlen
            omega
          · exact htail.trans (List.suffix_cons _ _)

theorem sl_drop_one_suffix (X Y : List Nat) :
    (pySplitlines Y).drop 1 <:+ pySplitlines (X ++ Y) :=
  sl_drop_one_suffix_aux X.length X Y le_rfl

theorem sl_junk_prepend :
    ∀ (J Y : List Nat), (∀ c ∈ J, isLineBreak c = false) →
      (pySplitlines (J ++ Y)).drop 1 = (pySplitlines Y).drop 1 := by
  intro J
  induction J with
  | nil => intro Y _; rfl
  | cons c J' ih =>
    intro Y hJ
    have hc : isLineBreak c = false := hJ c (by simp)
    rw [List.cons_append, sl_chr c (J' ++ Y) hc]
    have hih := ih Y (fun x hx => hJ x (by simp [hx]))
    cases hsl : pySplitlines (J' ++ Y) with
    | nil =>
      have : J' ++ Y = [] := (sl_eq_nil_iff _).mp hsl
      have hY : Y = [] := (List.append_eq_nil.mp this).2
      subst hY
      simp [sl_nil]
    | cons l ls =>
      rw [hsl] at hih
      simpa using hih

theorem cont_range (b : Nat) (h : cont b = true) : 128 ≤ b ∧ b ≤ 191 := by
  simp [cont] at h; exact h

theorem cont2_cont (b b2 : Nat) (h : cont2 b b2 = true) : cont b2 = true := by
  unfold cont2 at h
  split_ifs at h <;> simp [cont] at h ⊢ <;> omega

theorem cont3_cont (b b2 : Nat) (h : cont3 b b2 = true) : cont b2 = true := by
  unfold cont3 at h
  split_ifs at h <;> simp [cont] at h ⊢ <;> omega

theorem utf8_ascii (b : Nat) (rest : List Nat) (h : b < 128) :
    utf8DecodeReplace (b :: rest) = b :: utf8DecodeReplace rest := by
  match rest with
  | [] => simp [utf8DecodeReplace, h]
  | [b2] => simp [utf8DecodeReplace, h]
  | [b2, b3] => simp [utf8DecodeReplace, h]
  | b2 :: b3 :: b4 :: r => simp [utf8DecodeReplace, h]

theorem utf8_badstart (b : Nat) (rest : List Nat) (h1 : 128 ≤ b) (h2 : b < 194) :
    utf8DecodeReplace (b :: rest) = 65533 :: utf8DecodeReplace rest := by
  have h3 : ¬ b < 128 := by omega
  match rest with
  | [] => simp [utf8DecodeReplace, h2, h3]
  | [b2] => simp [utf8DecodeReplace, h2, h3]
  | [b2, b3] => simp [utf8DecodeReplace, h2, h3]
  | b2 :: b3 :: b4 :: r => simp [utf8DecodeReplace, h2, h3]

theorem utf8_high (b : Nat) (rest : List Nat) (h : 245 ≤ b) :
    utf8DecodeReplace (b :: rest) = 65533 :: utf8DecodeReplace rest := by
  have h1 : ¬ b < 128 := by omega
  have h2 : ¬ b < 194 := by omega
  have h3 : ¬ b < 224 := by omega
  have h4 : ¬ b < 240 := by omega
  have h5 : ¬ b < 245 := by omega
  match rest with
  | [] => simp [utf8DecodeReplace, h1, h2, h3, h4, h5]
  | [b2] => simp [utf8DecodeReplace, h1, h2, h3, h4, h5]
  | [b2, b3] => simp [utf8DecodeReplace, h1, h2, h3, h4, h5]
  | b2 :: b3 :: b4 :: r => simp [utf8DecodeReplace, h1, h2, h3, h4, h5]

theorem utf8_contbyte (b : Nat) (rest : List Nat) (h : cont b = true) :
    utf8DecodeReplace (b :: rest) = 65533 :: utf8DecodeReplace rest := by
  obtain ⟨ha, hb⟩ := cont_range b h
  exact utf8_badstart b rest ha (by omega)

theorem utf8_two_trunc (b : Nat) (h1 : 194 ≤ b) (h2 : b < 224) :
    utf8DecodeReplace [b] = [65533] := by
  have h3 : ¬ b < 128 := by omega
  simp [utf8DecodeReplace, h3]

theorem utf8_two_valid (b b2 : Nat) (rest2 : List Nat)
    (h1 : 194 ≤ b) (h2 : b < 224) (hc : cont b2 = true) :
    utf8DecodeReplace (b :: b2 :: rest2) =
      ((b - 192) * 64 + (b2 - 128)) :: utf8DecodeReplace rest2 := by
  have h3 : ¬ b < 128 := by omega
  have h4 : ¬ b < 194 := by omega
  match rest2 with
  | [] => simp [utf8DecodeReplace, h2, h3, h4, hc]
  | [b3] => simp [utf8DecodeReplace, h2, h3, h4, hc]
  | b3 :: b4 :: r => simp [utf8DecodeReplace, h2, h3, h4, hc]

theorem utf8_two_invalid (b b2 : Nat) (rest2 : List Nat)
    (h1 : 194 ≤ b) (h2 : b < 224) (hc : cont b2 = false) :
    utf8DecodeReplace (b :: b2 :: rest2) = 65533 :: utf8DecodeReplace (b2 :: rest2) := by
  have h3 : ¬ b < 128 := by omega
  have h4 : ¬ b < 194 := by omega
  match rest2 with
  | [] => simp [utf8DecodeReplace, h2, h3, h4, hc]
  | [b3] => simp [utf8DecodeReplace, h2, h3, h4, hc]
  | b3 :: b4 :: r => simp [utf8DecodeReplace, h2, h3, h4, hc]

theorem utf8_three_trunc1 (b : Nat) (h1 : 224 ≤ b) (h2 : b < 240) :
    utf8DecodeReplace [b] = [65533] := by
  have h3 : ¬ b < 128 := by omega
  simp [utf8DecodeReplace, h3]

theorem utf8_three_trunc2 (b b2 : Nat) (h1 : 224 ≤ b) (h2 : b < 240)
    (hc : cont2 b b2 = true) :
    utf8DecodeReplace [b, b2] = [65533] := by
  have h3 : ¬ b < 128 := by omega
  have h4 : ¬ b < 194 := by omega
  have h5 : ¬ b < 224 := by omega
  simp [utf8DecodeReplace, h2, h3, h4, h5, hc]

theorem utf8_three_invalid2 (b b2 : Nat) (rest2 : List Nat)
    (h1 : 224 ≤ b) (h2 : b < 240) (hc : cont2 b b2 = false) :
    utf8DecodeReplace (b :: b2 :: rest2) = 65533 :: utf8DecodeReplace (b2 :: rest2) := by
  have h3 : ¬ b < 128 := by omega
  have h4 : ¬ b < 194 := by omega
  have h5 : ¬ b < 224 := by omega
  match rest2 with
  | [] => simp [utf8DecodeReplace, h2, h3, h4, h5, hc]
  | [b3] => simp [utf8DecodeReplace, h2, h3, h4, h5, hc]
  | b3 :: b4 :: r => simp [utf8DecodeReplace, h2, h3, h4, h5, hc]

theorem utf8_three_valid (b b2 b3 : Nat) (rest3 : List Nat)
    (h1 : 224 ≤ b) (h2 : b < 240) (hc : cont2 b b2 = true) (hc3 : cont b3 = true) :
    utf8DecodeReplace (b :: b2 :: b3 :: rest3) =
      ((b - 224) * 4096 + (b2 - 128) * 64 + (b3 - 128)) :: utf8DecodeReplace rest3 := by
  have h3 : ¬ b < 128 := by omega
  have h4 : ¬ b < 194 := by omega
  have h5 : ¬ b < 224 := by omega
  match rest3 with
  | [] => simp [utf8DecodeReplace, h2, h3, h4, h5, hc, hc3]
  | b4 :: r => simp [utf8DecodeReplace, h2, h3, h4, h5, hc, hc3]

theorem utf8_three_invalid3 (b b2 b3 : Nat) (rest3 : List Nat)
    (h1 : 224 ≤ b) (h2 : b < 240) (hc : cont2 b b2 = true) (hc3 : cont b3 = false) :
    utf8DecodeReplace (b :: b2 :: b3 :: rest3) = 65533 :: utf8DecodeReplace (b3 :: rest3) := by
  have h3 : ¬ b < 128 := by omega
  have h4 : ¬ b < 194 := by omega
  have h5 : ¬ b < 224 := by omega
  match rest3 with
  | [] => simp [utf8DecodeReplace, h2, h3, h4, h5, hc, hc3]
  | b4 :: r => simp [utf8DecodeReplace, h2, h3, h4, h5, hc, hc3]

theorem utf8_four_trunc1 (b : Nat) (h1 : 240 ≤ b) (h2 : b < 245) :
    utf8DecodeReplace [b] = [65533] := by
  have h3 : ¬ b < 128 := by omega
  simp [utf8DecodeReplace, h3]

theorem utf8_four_trunc2 (b b2 : Nat) (h1 : 240 ≤ b) (h2 : b < 245)
    (hc : cont3 b b2 = true) :
    utf8DecodeReplace [b, b2] = [65533] := by
  have h3 : ¬ b < 128 := by omega
  have h4 : ¬ b < 194 := by omega
  have h5 : ¬ b < 224 := by omega
  have h6 : ¬ b < 240 := by omega
  simp [utf8DecodeReplace, h2, h3, h4, h5, h6, hc]

theorem utf8_four_trunc3 (b b2 b3 : Nat) (h1 : 240 ≤ b) (h2 : b < 245)
    (hc : cont3 b b2 = true) (hc3 : cont b3 = true) :
    utf8DecodeReplace [b, b2, b3] = [65533] := by
  have h3 : ¬ b < 128 := by omega
  have h4 : ¬ b < 194 := by omega
  have h5 : ¬ b < 224 := by omega
  have h6 : ¬ b < 240 := by omega
  simp [utf8DecodeReplace, h2, h3, h4, h5, h6, hc, hc3]

theorem utf8_four_invalid2 (b b2 : Nat) (rest2 : List Nat)
    (h1 : 240 ≤ b) (h2 : b < 245) (hc : cont3 b b2 = false) :
    utf8DecodeReplace (b :: b2 :: rest2) = 65533 :: utf8DecodeReplace (b2 :: rest2) := by
  have h3 : ¬ b < 128 := by omega
  have h4 : ¬ b < 194 := by omega
  have h5 : ¬ b < 224 := by omega
  have h6 : ¬ b < 240 := by omega
  match rest2 with
  | [] => simp [utf8DecodeReplace, h2, h3, h4, h5, h6, hc]
  | [b3] => simp [utf8DecodeReplace, h2, h3, h4, h5, h6, hc]
  | b3 :: b4 :: r => simp [utf8DecodeReplace, h2, h3, h4, h5, h6, hc]

theorem utf8_four_invalid3 (b b2 b3 : Nat) (rest3 : List Nat)
    (h1 : 240 ≤ b) (h2 : b < 245) (hc : cont3 b b2 = true) (hc3 : cont b3 = false) :
    utf8DecodeReplace (b :: b2 :: b3 :: rest3) = 65533 :: utf8DecodeReplace (b3 :: rest3) := by
  have h3 : ¬ b < 128 := by omega
  have h4 : ¬ b < 194 := by omega
  have h5 : ¬ b < 224 := by omega
  have h6 : ¬ b < 240 := by omega
  match rest3 with
  | [] => simp [utf8DecodeReplace, h2, h3, h4, h5, h6, hc, hc3]
  | b4 :: r => simp [utf8DecodeReplace, h2, h3, h4, h5, h6, hc, hc3]

theorem utf8_four_invalid4 (b b2 b3 b4 : Nat) (rest4 : List Nat)
    (h1 : 240 ≤ b) (h2 : b < 245) (hc : cont3 b b2 = true) (hc3 : cont b3 = true)
    (hc4 : cont b4 = false) :
    utf8DecodeReplace (b :: b2 :: b3 :: b4 :: rest4) =
      65533 :: utf8DecodeReplace (b4 :: rest4) := by
  have h3 : ¬ b < 128 := by omega
  have h4 : ¬ b < 194 := by omega
  have h5 : ¬ b < 224 := by omega
  have h6 : ¬ b < 240 := by omega
  simp [utf8DecodeReplace, h2, h3, h4, h5, h6, hc, hc3, hc4]

theorem utf8_four_valid (b b2 b3 b4 : Nat) (rest4 : List Nat)
    (h1 : 240 ≤ b) (h2 : b < 245) (hc : cont3 b b2 = true) (hc3 : cont b3 = true)
    (hc4 : cont b4 = true) :
    utf8DecodeReplace (b :: b2 :: b3 :: b4 :: rest4) =
      ((b - 240) * 262144 + (b2 - 128) * 4096 + (b3 - 128) * 64 + (b4 - 128)) ::
        utf8DecodeReplace rest4 := by
  have h3 : ¬ b < 128 := by omega
  have h4 : ¬ b < 194 := by omega
  have h5 : ¬ b < 224 := by omega
  have h6 : ¬ b < 240 := by omega
  simp [utf8DecodeReplace, h2, h3, h4, h5, h6, hc, hc3, hc4]

theorem utf8_ne_nil (b : Nat) (rest : List Nat) : utf8DecodeReplace (b :: rest) ≠ [] := by
  by_cases h1 : b < 128
  · rw [utf8_ascii b rest h1]; simp
  by_cases h2 : b < 194
  · rw [utf8_badstart b rest (by omega) h2]; simp
  by_cases h3 : b < 224
  · cases rest with
    | nil => rw [utf8_two_trunc b (by omega) h3]; simp
    | cons b2 r2 =>
      cases hc : cont b2
      · rw [utf8_two_invalid b b2 r2 (by omega) h3 hc]; simp
      · rw [utf8_two_valid b b2 r2 (by omega) h3 hc]; simp
  by_cases h4 : b < 240
  · cases rest with
    | nil => rw [utf8_three_trunc1 b (by omega) h4]; simp
    | cons b2 r2 =>
      cases hc : cont2 b b2
      · rw [utf8_three_invalid2 b b2 r2 (by omega) h4 hc]; simp
      · cases r2 with
        | nil => rw [utf8_three_trunc2 b b2 (by omega) h4 hc]; simp
        | cons b3 r3 =>
          cases hc3 : cont b3
          · rw [utf8_three_invalid3 b b2 b3 r3 (by omega) h4 hc hc3]; simp
          · rw [utf8_three_valid b b2 b3 r3 (by omega) h4 hc hc3]; simp
  by_cases h5 : b < 245
  · cases rest with
    | nil => rw [utf8_four_trunc1 b (by omega) h5]; simp
    | cons b2 r2 =>
      cases hc : cont3 b b2
      · rw [utf8_four_invalid2 b b2 r2 (by omega) h5 hc]; simp
      · cases r2 with
        | nil => rw [utf8_four_trunc2 b b2 (by omega) h5 hc]; simp
        | cons b3 r3 =>
          cases hc3 : cont b3
          · rw [utf8_four_invalid3 b b2 b3 r3 (by omega) h5 hc hc3]; simp
          · cases r3 with
            | nil => rw [utf8_four_trunc3 b b2 b3 (by omega) h5 hc hc3]; simp
            | cons b4 r4 =>
              cases hc4 : cont b4
              · rw [utf8_four_invalid4 b b2 b3 b4 r4 (by omega) h5 hc hc3 hc4]; simp
              · rw [utf8_four_valid b b2 b3 b4 r4 (by omega) h5 hc hc3 hc4]; simp
  · rw [utf8_high b rest (by omega)]; simp

theorem utf8_resync_aux :
    ∀ n (B : List Nat) (p : Nat), B.length ≤ n →
      ∃ J T D, utf8DecodeReplace (B.drop p) = J ++ T ∧
        utf8DecodeReplace B = D ++ T ∧ ∀ c ∈ J, c = 65533 := by
  intro n
  induction n with
  | zero =>
    intro B p hB
    have hBn : B = [] := List.length_eq_zero.mp (Nat.le_zero.mp hB)
    subst hBn
    exact ⟨[], [], [], by simp [utf8DecodeReplace], by simp [utf8DecodeReplace], by simp⟩
  | succ n ih =>
    intro B p hB
    cases B with
    | nil =>
      exact ⟨[], [], [], by simp [utf8DecodeReplace], by simp [utf8DecodeReplace], by simp⟩
    | cons b rest =>
      cases p with
      | zero =>
        exact ⟨[], utf8DecodeReplace (b :: rest), [], by simp, by simp, by simp⟩
      | succ q =>
        have hrest : rest.length ≤ n := by simp at hB; omega
        by_cases hlen : (b :: rest).length ≤ q + 1
        · refine ⟨[], [], utf8DecodeReplace (b :: rest), ?_, by simp, by simp⟩
          rw [List.drop_eq_nil_of_le hlen]
          simp [utf8DecodeReplace]
        have hq : q < rest.length := by simp at hlen; omega
        by_cases h1 : b < 128
        · obtain ⟨J, T, D, e1, e2, hJ⟩ := ih rest q hrest
          exact ⟨J, T, b :: D, by rw [List.drop_succ_cons]; exact e1,
            by rw [utf8_ascii b rest h1, e2]; rfl, hJ⟩
        by_cases h2 : b < 194
        · obtain ⟨J, T, D, e1, e2, hJ⟩ := ih rest q hrest
          exact ⟨J, T, 65533 :: D, by rw [List.drop_succ_cons]; exact e1,
            by rw [utf8_badstart b rest (by omega) h2, e2]; rfl, hJ⟩
        by_cases h3 : b < 224
        · cases rest with
          | nil => simp at hq
          | cons b2 rest2 =>
            cases hc : cont b2 with
            | false =>
              obtain ⟨J, T, D, e1, e2, hJ⟩ := ih (b2 :: rest2) q hrest
              exact ⟨J, T, 65533 :: D, by rw [List.drop_succ_cons]; exact e1,
                by rw [utf8_two_invalid b b2 rest2 (by omega) h3 hc, e2]; rfl, hJ⟩
            | true =>
              cases q with
              | zero =>
                refine ⟨[65533], utf8DecodeReplace rest2,
                  [(b - 192) * 64 + (b2 - 128)], ?_, ?_, by simp⟩
                · rw [List.drop_succ_cons, List.drop_zero, utf8_contbyte b2 rest2 hc]; rfl
                · rw [utf8_two_valid b b2 rest2 (by omega) h3 hc]; rfl
              | succ q' =>
                have hrest2 : rest2.length ≤ n := by simp at hrest; omega
                obtain ⟨J, T, D, e1, e2, hJ⟩ := ih rest2 q' hrest2
                exact ⟨J, T, ((b - 192) * 64 + (b2 - 128)) :: D,
                  by rw [List.drop_succ_cons, List.drop_succ_cons]; exact e1,
                  by rw [utf8_two_valid b b2 rest2 (by omega) h3 hc, e2]; rfl, hJ⟩
        by_cases h4 : b < 240
        · cases rest with
          | nil => simp at hq
          | cons b2 rest2 =>
            cases hc : cont2 b b2 with
            | false =>
              obtain ⟨J, T, D, e1, e2, hJ⟩ := ih (b2 :: rest2) q hrest
              exact ⟨J, T, 65533 :: D, by rw [List.drop_succ_cons]; exact e1,
                by rw [utf8_three_invalid2 b b2 rest2 (by omega) h4 hc, e2]; rfl, hJ⟩
            | true =>
              cases rest2 with
              | nil =>
                have hq0 : q = 0 := by simp at hq; omega
                subst hq0
                refine ⟨[65533], [], [65533], ?_, ?_, by simp⟩
                · rw [List.drop_succ_cons, List.drop_zero,
                      utf8_contbyte b2 [] (cont2_cont b b2 hc)]
                  simp [utf8DecodeReplace]
                · rw [utf8_three_trunc2 b b2 (by omega) h4 hc]; rfl
              | cons b3 rest3 =>
                cases hc3 : cont b3 with
                | false =>
                  cases q with
                  | zero =>
                    refine ⟨[65533], utf8DecodeReplace (b3 :: rest3), [65533], ?_, ?_, by simp⟩
                    · rw [List.drop_succ_cons, List.drop_zero,
                          utf8_contbyte b2 (b3 :: rest3) (cont2_cont b b2 hc)]
                      rfl
                    · rw [utf8_three_invalid3 b b2 b3 rest3 (by omega) h4 hc hc3]; rfl
                  | succ q' =>
                    have hr3 : (b3 :: rest3).length ≤ n := by simp at hrest; simp; omega
                    obtain ⟨J, T, D, e1, e2, hJ⟩ := ih (b3 :: rest3) q' hr3
                    exact ⟨J, T, 65533 :: D,
                      by rw [List.drop_succ_cons, List.drop_succ_cons]; exact e1,
                      by rw [utf8_three_invalid3 b b2 b3 rest3 (by omega) h4 hc hc3, e2]; rfl,
                      hJ⟩
                | true =>
                  cases q with
                  | zero =>
                    refine ⟨[65533, 65533], utf8DecodeReplace rest3,
                      [(b - 224) * 4096 + (b2 - 128) * 64 + (b3 - 128)], ?_, ?_, by simp⟩
                    · rw [List.drop_succ_cons, List.drop_zero,
                          utf8_contbyte b2 (b3 :: rest3) (cont2_cont b b2 hc),
                          utf8_contbyte b3 rest3 hc3]
                      rfl
                    · rw [utf8_three_valid b b2 b3 rest3 (by omega) h4 hc hc3]; rfl
                  | succ q' =>
                    cases q' with
                    | zero =>
                      refine ⟨[65533], utf8DecodeReplace rest3,
                        [(b - 224) * 4096 + (b2 - 128) * 64 + (b3 - 128)], ?_, ?_, by simp⟩
                      · rw [List.drop_succ_cons, List.drop_succ_cons, List.drop_zero,
                            utf8_contbyte b3 rest3 hc3]
                        rfl
                      · rw [utf8_three_valid b b2 b3 rest3 (by omega) h4 hc hc3]; rfl
                    | succ q'' =>
                      have hr3 : rest3.length ≤ n := by simp at hrest; omega
                      obtain ⟨J, T, D, e1, e2, hJ⟩ := ih rest3 q'' hr3
                      exact ⟨J, T, ((b - 224) * 4096 + (b2 - 128) * 64 + (b3 - 128)) :: D,
                        by rw [List.drop_succ_cons, List.drop_succ_cons, List.drop_succ_cons]
                           exact e1,
                        by rw [utf8_three_valid b b2 b3 rest3 (by omega) h4 hc hc3, e2]; rfl,
                        hJ⟩
        by_cases h5 : b < 245
        · cases rest with
          | nil => simp at hq
          | cons b2 rest2 =>
            cases hc : cont3 b b2 with
            | false =>
              obtain ⟨J, T, D, e1, e2, hJ⟩ := ih (b2 :: rest2) q hrest
              exact ⟨J, T, 65533 :: D, by rw [List.drop_succ_cons]; exact e1,
                by rw [utf8_four_invalid2 b b2 rest2 (by omega) h5 hc, e2]; rfl, hJ⟩
            | true =>
              cases rest2 with
              | nil =>
                have hq0 : q = 0 := by simp at hq; omega
                subst hq0
                refine ⟨[65533], [], [65533], ?_, ?_, by simp⟩
                · rw [List.drop_succ_cons, List.drop_zero,
                      utf8_contbyte b2 [] (cont3_cont b b2 hc)]
                  simp [utf8DecodeReplace]
                · rw [utf8_four_trunc2 b b2 (by omega) h5 hc]; rfl
              | cons b3 rest3 =>
                cases hc3 : cont b3 with
                | false =>
                  cases q with
                  | zero =>
                    refine ⟨[65533], utf8DecodeReplace (b3 :: rest3), [65533], ?_, ?_, by simp⟩
                    · rw [List.drop_succ_cons, List.drop_zero,
                          utf8_contbyte b2 (b3 :: rest3) (cont3_cont b b2 hc)]
                      rfl
                    · rw [utf8_four_invalid3 b b2 b3 rest3 (by omega) h5 hc hc3]; rfl
                  | succ q' =>
                    have hr3 : (b3 :: rest3).length ≤ n := by simp at hrest; simp; omega
                    obtain ⟨J, T, D, e1, e2, hJ⟩ := ih (b3 :: rest3) q' hr3
                    exact ⟨J, T, 65533 :: D,
                      by rw [List.drop_succ_cons, List.drop_succ_cons]; exact e1,
                      by rw [utf8_four_invalid3 b b2 b3 rest3 (by omega) h5 hc hc3, e2]; rfl,
                      hJ⟩
                | true =>
                  cases rest3 with
                  | nil =>
                    have hq01 : q = 0 ∨ q = 1 := by simp at hq; omega
                    rcases hq01 with hq0 | hq1
                    · subst hq0
                      refine ⟨[65533, 65533], [], [65533], ?_, ?_, by simp⟩
                      · rw [List.drop_succ_cons, List.drop_zero,
                            utf8_contbyte b2 [b3] (cont3_cont b b2 hc),
                            utf8_contbyte b3 [] hc3]
                        simp [utf8DecodeReplace]
                      · rw [utf8_four_trunc3 b b2 b3 (by omega) h5 hc hc3]; rfl
                    · subst hq1
                      refine ⟨[65533], [], [65533], ?_, ?_, by simp⟩
                      · rw [List.drop_succ_cons, List.drop_succ_cons, List.drop_zero,
                            utf8_contbyte b3 [] hc3]
                        simp [utf8DecodeReplace]
                      · rw [utf8_four_trunc3 b b2 b3 (by omega) h5 hc hc3]; rfl
                  | cons b4 rest4 =>
                    cases hc4 : cont b4 with
                    | false =>
                      cases q with
                      | zero =>
                        refine ⟨[65533, 65533], utf8DecodeReplace (b4 :: rest4), [65533],
                          ?_, ?_, by simp⟩
                        · rw [List.drop_succ_cons, List.drop_zero,
                              utf8_contbyte b2 (b3 :: b4 :: rest4) (cont3_cont b b2 hc),
                              utf8_contbyte b3 (b4 :: rest4) hc3]
                          rfl
                        · rw [utf8_four_invalid4 b b2 b3 b4 rest4 (by omega) h5 hc hc3 hc4]
                          rfl
                      | succ q' =>
                        cases q' with
                        | zero =>
                          refine ⟨[65533], utf8DecodeReplace (b4 :: rest4), [65533],
                            ?_, ?_, by simp⟩
                          · rw [List.drop_succ_cons, List.drop_succ_cons, List.drop_zero,
                                utf8_contbyte b3 (b4 :: rest4) hc3]
                            rfl
                          · rw [utf8_four_invalid4 b b2 b3 b4 rest4 (by omega) h5 hc hc3 hc4]
                            rfl
                        | succ q'' =>
                          have hr4 : (b4 :: rest4).length ≤ n := by
                            simp at hrest; simp; omega
                          obtain ⟨J, T, D, e1, e2, hJ⟩ := ih (b4 :: rest4) q'' hr4
                          exact ⟨J, T, 65533 :: D,
                            by rw [List.drop_succ_cons, List.drop_succ_cons,
                                   List.drop_succ_cons]
                               exact e1,
                            by rw [utf8_four_invalid4 b b2 b3 b4 rest4 (by omega) h5 hc hc3
                                     hc4, e2]
                               rfl,
                            hJ⟩
                    | true =>
                      cases q with
                      | zero =>
                        refine ⟨[65533, 65533, 65533], utf8DecodeReplace rest4,
                          [(b - 240) * 262144 + (b2 - 128) * 4096 + (b3 - 128) * 64 +
                            (b4 - 128)], ?_, ?_, by simp⟩
                        · rw [List.drop_succ_cons, List.drop_zero,
                              utf8_contbyte b2 (b3 :: b4 :: rest4) (cont3_cont b b2 hc),
                              utf8_contbyte b3 (b4 :: rest4) hc3,
                              utf8_contbyte b4 rest4 hc4]
                          rfl
                        · rw [utf8_four_valid b b2 b3 b4 rest4 (by omega) h5 hc hc3 hc4]; rfl
                      | succ q' =>
                        cases q' with
                        | zero =>
                          refine ⟨[65533, 65533], utf8DecodeReplace rest4,
                            [(b - 240) * 262144 + (b2 - 128) * 4096 + (b3 - 128) * 64 +
                              (b4 - 128)], ?_, ?_, by simp⟩
                          · rw [List.drop_succ_cons, List.drop_succ_cons, List.drop_zero,
                                utf8_contbyte b3 (b4 :: rest4) hc3,
                                utf8_contbyte b4 rest4 hc4]
                            rfl
                          · rw [utf8_four_valid b b2 b3 b4 rest4 (by omega) h5 hc hc3 hc4]
                            rfl
                        | succ q'' =>
                          cases q'' with
                          | zero =>
                            refine ⟨[65533], utf8DecodeReplace rest4,
                              [(b - 240) * 262144 + (b2 - 128) * 4096 + (b3 - 128) * 64 +
                                (b4 - 128)], ?_, ?_, by simp⟩
                            · rw [List.drop_succ_cons, List.drop_succ_cons,
                                  List.drop_succ_cons, List.drop_zero,
                                  utf8_contbyte b4 rest4 hc4]
                              rfl
                            · rw [utf8_four_valid b b2 b3 b4 rest4 (by omega) h5 hc hc3 hc4]
                              rfl
                          | succ q3 =>
                            have hr4 : rest4.length ≤ n := by simp at hrest; omega
                            obtain ⟨J, T, D, e1, e2, hJ⟩ := ih rest4 q3 hr4
                            exact ⟨J, T,
                              ((b - 240) * 262144 + (b2 - 128) * 4096 + (b3 - 128) * 64 +
                                (b4 - 128)) :: D,
                              by rw [List.drop_succ_cons, List.drop_succ_cons,
                                     List.drop_succ_cons, List.drop_succ_cons]
                                 exact e1,
                              by rw [utf8_four_valid b b2 b3 b4 rest4 (by omega) h5 hc hc3
                                       hc4, e2]
                                 rfl,
                              hJ⟩
        · obtain ⟨J, T, D, e1, e2, hJ⟩ := ih rest q hrest
          exact ⟨J, T, 65533 :: D, by rw [List.drop_succ_cons]; exact e1,
            by rw [utf8_high b rest (by omega), e2]; rfl, hJ⟩

theorem utf8_resync (B : List Nat) (p : Nat) :
    ∃ J T D, utf8DecodeReplace (B.drop p) = J ++ T ∧
      utf8DecodeReplace B = D ++ T ∧ ∀ c ∈ J, c = 65533 :=
  utf8_resync_aux B.length B p le_rfl

theorem utf8_drop_lines_suffix (B : List Nat) (p : Nat) :
    (pySplitlines (utf8DecodeReplace (B.drop p))).drop 1 <:+
      pySplitlines (utf8DecodeReplace B) := by
  obtain ⟨J, T, D, e1, e2, hJ⟩ := utf8_resync B p
  rw [e1, e2, sl_junk_prepend J T (fun c hc => by rw [hJ c hc]; decide)]
  exact sl_drop_one_suffix D T

theorem pyLastSlice_zero (xs : List α) : pyLastSlice 0 xs = xs := by
  simp [pyLastSlice]

theorem pyLastSlice_pos (k : Nat) (xs : List α) (hk : k ≠ 0) :
    pyLastSlice k xs = xs.drop (xs.length - k) := by
  simp [pyLastSlice, hk]

theorem pyLastSlice_suffix (k : Nat) (xs : List α) : pyLastSlice k xs <:+ xs := by
  unfold pyLastSlice
  split
  · exact List.suffix_refl xs
  · exact List.drop_suffix _ _

theorem pyLastSlice_length_le (k : Nat) (xs : List α) (hk : 1 ≤ k) :
    (pyLastSlice k xs).length ≤ k := by
  rw [pyLastSlice_pos k xs (by omega)]
  simp
  omega

theorem pyLastSlice_length_eq (k : Nat) (xs : List α) (hk : 1 ≤ k) (hlt : k ≤ xs.length) :
    (pyLastSlice k xs).length = k := by
  rw [pyLastSlice_pos k xs (by omega)]
  simp
  omega

theorem isPre_iff (p s : List Char) : isPre p s = true ↔ ∃ t, p ++ t = s := by
  induction p generalizing s with
  | nil => simp [isPre]
  | cons a p2 ih =>
    cases s with
    | nil => simp [isPre]
    | cons b s2 =>
      simp only [isPre, Bool.and_eq_true, beq_iff_eq, ih, List.cons_append, List.cons.injEq]
      constructor
      · rintro ⟨rfl, t, rfl⟩; exact ⟨t, rfl, rfl⟩
      · rintro ⟨t, rfl, rfl⟩; exact ⟨rfl, t, rfl⟩

theorem hasSub_iff (s p : List Char) : hasSub s p = true ↔ ∃ u v, u ++ (p ++ v) = s := by
  induction s with
  | nil =>
    simp only [hasSub, List.isEmpty_iff]
    constructor
    · intro h; exact ⟨[], [], by simp [h]⟩
    · rintro ⟨u, v, h⟩
      rcases List.append_eq_nil.mp h with ⟨rfl, h2⟩
      exact (List.append_eq_nil.mp h2).1
  | cons c s2 ih =>
    simp only [hasSub, Bool.or_eq_true, isPre_iff, ih]
    constructor
    · rintro (⟨t, ht⟩ | ⟨u, v, h⟩)
      · exact ⟨[], t, by simpa using ht⟩
      · exact ⟨c :: u, v, by rw [← h]; rfl⟩
    · rintro ⟨u, v, h⟩
      cases u with
      | nil => exact Or.inl ⟨v, by simpa using h⟩
      | cons a u' =>
        right
        rw [List.cons_append] at h
        injection h with h1 h2
        exact ⟨u', v, h2⟩

theorem pySplit_tokens_aux :
    ∀ n (s : List Char), s.length ≤ n →
      ∀ t ∈ pySplit s, t ≠ [] ∧ ∀ c ∈ t, pyIsSpace c = false := by
  intro n
  induction n with
  | zero =>
    intro s hs
    have : s = [] := List.length_eq_zero.mp (Nat.le_zero.mp hs)
    subst this
    simp [pySplit]
  | succ n ih =>
    intro s hs
    cases s with
    | nil => simp [pySplit]
    | cons c s' =>
      cases s' with
      | nil =>
        intro t ht
        by_cases hc : pyIsSpace c = true
        · simp [pySplit, hc] at ht
        · simp [pySplit, hc] at ht
          subst ht
          exact ⟨by simp, by intro x hx; simp at hx; subst hx; simpa using hc⟩
      | cons d rest =>
        intro t ht
        by_cases hc : pyIsSpace c = true
        · rw [show pySplit (c :: d :: rest) = pySplit (d :: rest) by simp [pySplit, hc]] at ht
          exact ih (d :: rest) (by simp at hs; simp; omega) t ht
        · by_cases hd : pyIsSpace d = true
          · rw [show pySplit (c :: d :: rest) = [c] :: pySplit rest by
                simp [pySplit, hc, hd]] at ht
            rw [List.mem_cons] at ht
            rcases ht with rfl | ht
            · exact ⟨by simp, by intro x hx; simp at hx; subst hx; simpa using hc⟩
            · exact ih rest (by simp at hs; omega) t ht
          · have hun : pySplit (c :: d :: rest) =
                (match pySplit (d :: rest) with
                 | [] => [[c]]
                 | t :: ts => (c :: t) :: ts) := by
              simp [pySplit, hc, hd]
            rw [hun] at ht
            have hihd := ih (d :: rest) (by simp at hs; simp; omega)
            cases hsplit : pySplit (d :: rest) with
            | nil =>
              rw [hsplit] at ht
              simp at ht
              subst ht
              exact ⟨by simp, by intro x hx; simp at hx; subst hx; simpa using hc⟩
            | cons t' ts =>
              rw [hsplit] at ht
              rw [List.mem_cons] at ht
              rcases ht with rfl | ht
              · have := hihd t' (by rw [hsplit]; simp)
                refine ⟨by simp, ?_⟩
                intro x hx
                rw [List.mem_cons] at hx
                rcases hx with rfl | hx
                · simpa using hc
                · exact this.2 x hx
              · exact hihd t (by rw [hsplit, List.mem_cons]; right; exact ht)

theorem pySplit_tokens (s : List Char) :
    ∀ t ∈ pySplit s, t ≠ [] ∧ ∀ c ∈ t, pyIsSpace c = false :=
  pySplit_tokens_aux s.length s le_rfl

theorem pySplit_allspace :
    ∀ n (s : List Char), s.length ≤ n → (∀ c ∈ s, pyIsSpace c = true) →
      pySplit s = [] := by
  intro n
  induction n with
  | zero =>
    intro s hs _
    have : s = [] := List.length_eq_zero.mp (Nat.le_zero.mp hs)
    subst this
    rfl
  | succ n ih =>
    intro s hs hsp
    cases s with
    | nil => rfl
    | cons c s' =>
      have hc : pyIsSpace c = true := hsp c (by simp)
      cases s' with
      | nil => simp [pySplit, hc]
      | cons d rest =>
        rw [show pySplit (c :: d :: rest) = pySplit (d :: rest) by simp [pySplit, hc]]
        exact ih (d :: rest) (by simp at hs; simp; omega)
          (fun x hx => hsp x (by simp at hx; simp [hx]))

/-- Claim C2: for every command string, including one containing denylisted
content, execute with dry_run true returns DryRunPreview immediately for
every spawn oracle, spawns no process (second component none) and performs
no validation and no side effect; its rendered text contains the literal
input command. -/
theorem c2_dry_run_preview (spawn : SpawnFun) (command : List Char) :
    secure_shell_executor spawn command true = (.dryRunPreview command, none) ∧
    ∃ u v, u ++ (command ++ v) = renderResult (.dryRunPreview command) := by
  refine ⟨by simp [secure_shell_executor], ⟨"[DRY RUN] Would execute: ".toList, [], ?_⟩⟩
  simp [renderResult]

/-- Claim C1 counterexample: the command echo followed by a single
ampersand contains the character listed in the claim denylist, yet the
executor does not return Blocked; it spawns the tokenized argument vector
and returns Success under an oracle whose child exits with code 0.  The
source checks the two-character substring of two ampersands, never the
single ampersand character. -/
theorem c1_counterexample_test :
    '&' ∈ "echo &".toList ∧
    secure_shell_executor spawnAlways0 "echo &".toList false =
      (.success [], some [['e', 'c', 'h', 'o'], ['&']]) ∧
    (secure_shell_executor spawnAlways0 "echo &".toList false).1 ≠
      .blocked "echo &".toList ∧
    (secure_shell_executor spawnAlways0 "echo &".toList false).2 ≠ none := by
  refine ⟨by decide, ?_, ?_, ?_⟩ <;> decide

/-- Claim C1 (amended): for every command containing one of the forbidden
substrings the source actually checks (semicolon, double ampersand, double
bar, bar, greater-than, less-than, backtick, dollar-paren), execute with
dry_run false returns Blocked and spawns no process, and the rendered
Blocked message contains the command and hence the offending pattern. -/
theorem c1_blocked_amended (spawn : SpawnFun) (command p : List Char)
    (hp : p ∈ forbiddenPatterns) (hin : ∃ u v, u ++ (p ++ v) = command) :
    secure_shell_executor spawn command false = (.blocked command, none) ∧
    ∃ u v, u ++ (p ++ v) = renderResult (.blocked command) := by
  have hsub : hasSub command p = true := (hasSub_iff command p).mpr hin
  have hany : forbiddenPatterns.any (fun q => hasSub command q) = true :=
    List.any_eq_true.mpr ⟨p, hp, hsub⟩
  refine ⟨by simp [secure_shell_executor, hany], ?_⟩
  obtain ⟨u, v, h⟩ := hin
  refine ⟨"Command blocked due to detected shell metacharacters: ".toList ++ u, v, ?_⟩
  rw [renderResult, ← h]
  simp

/-- Claim C5: for every command with dry_run false that passes the
denylist check and tokenizes to a nonempty argument vector, the result is
classified by the spawn outcome obtained with the fixed 30-second timeout:
exit code 0 gives Success with the captured stdout; a nonzero exit code
gives Failure with the exit code and captured stderr; timeout expiry gives
ExecutionError; spawn failure gives ExecutionError with the message and no
process was created.  Exactly one variant is produced since the executor
is a function. -/
theorem c5_outcome_classification (spawn : SpawnFun) (command : List Char)
    (hpass : ∀ p ∈ forbiddenPatterns, hasSub command p = false)
    (hargv : pySplit command ≠ []) :
    (∀ out err, spawn (pySplit command) timeoutSeconds = .completed 0 out err →
      secure_shell_executor spawn command false = (.success out, some (pySplit command))) ∧
    (∀ rc out err, rc ≠ 0 →
      spawn (pySplit command) timeoutSeconds = .completed rc out err →
      secure_shell_executor spawn command false =
        (.failure rc err, some (pySplit command))) ∧
    (∀ m, spawn (pySplit command) timeoutSeconds = .timedOut m →
      secure_shell_executor spawn command false =
        (.executionError m, some (pySplit command))) ∧
    (∀ m, spawn (pySplit command) timeoutSeconds = .spawnFailed m →
      secure_shell_executor spawn command false = (.executionError m, none)) := by
  have hany : forbiddenPatterns.any (fun q => hasSub command q) = false := by
    rw [List.any_eq_false]
    intro p hp
    simp [hpass p hp]
  obtain ⟨t, ts, ht⟩ := List.exists_cons_of_ne_nil hargv
  refine ⟨?_, ?_, ?_, ?_⟩
  · intro out err hsp
    rw [ht] at hsp
    simp [secure_shell_executor, hany, ht, hsp]
  · intro rc out err hrc hsp
    rw [ht] at hsp
    simp [secure_shell_executor, hany, ht, hsp, hrc]
  · intro m hsp
    rw [ht] at hsp
    simp [secure_shell_executor, hany, ht, hsp]
  · intro m hsp
    rw [ht] at hsp
    simp [secure_shell_executor, hany, ht, hsp]

/-- Claim C7: whenever execute with dry_run false spawns a child process,
the argument vector the spawn facility receives is exactly the
whitespace-delimited tokens of the command string, each token nonempty and
free of whitespace; no shell interpreter is involved, the tokens are
passed verbatim. -/
theorem c7_argv_is_split (spawn : SpawnFun) (command : List Char) (argv : List (List Char))
    (h : (secure_shell_executor spawn command false).2 = some argv) :
    argv = pySplit command ∧
    ∀ t ∈ argv, t ≠ [] ∧ ∀ c ∈ t, pyIsSpace c = false := by
  have hargv : argv = pySplit command := by
    by_cases hany : forbiddenPatterns.any (fun q => hasSub command q) = true
    · simp [secure_shell_executor, hany] at h
    · rw [Bool.not_eq_true] at hany
      cases hsplit : pySplit command with
      | nil => simp [secure_shell_executor, hany, hsplit] at h
      | cons t ts =>
        cases hout : spawn (t :: ts) timeoutSeconds with
        | completed rc out err =>
          by_cases hrc : rc = 0
          · subst hrc
            simp [secure_shell_executor, hany, hsplit, hout] at h
            exact h.symm
          · simp [secure_shell_executor, hany, hsplit, hout, hrc] at h
            exact h.symm
        | timedOut m =>
          simp [secure_shell_executor, hany, hsplit, hout] at h
          exact h.symm
        | spawnFailed m =>
          simp [secure_shell_executor, hany, hsplit, hout] at h
  subst hargv
  exact ⟨rfl, pySplit_tokens command⟩

/-- Claim C10: for every command that is empty or consists only of
whitespace, execute with dry_run false passes the denylist check,
tokenizes to an empty argument vector, and returns ExecutionError with
the message of the IndexError CPython raises before a process is created;
it never returns Blocked, Success or Failure and spawns nothing. -/
theorem c10_whitespace_command (spawn : SpawnFun) (command : List Char)
    (hws : ∀ c ∈ command, pyIsSpace c = true) :
    secure_shell_executor spawn command false = (.executionError emptyArgvMessage, none) := by
  have hany : forbiddenPatterns.any (fun q => hasSub command q) = false := by
    rw [List.any_eq_false]
    intro p hp hne
    obtain ⟨u, v, hev⟩ := (hasSub_iff command p).mp hne
    have hmem : ∀ c ∈ p, c ∈ command := by
      intro c hcp
      rw [← hev]
      simp [hcp]
    have hex : ∃ c ∈ p, pyIsSpace c = false := by
      fin_cases hp <;> decide
    obtain ⟨c, hcp, hcs⟩ := hex
    rw [hws c (hmem c hcp)] at hcs
    cases hcs
  have hsplit : pySplit command = [] :=
    pySplit_allspace command.length command le_rfl hws
  simp [secure_shell_executor, hany, hsplit]

/-- Claim C3: for a regular file below the 1 MiB threshold whose decoded
content has N lines, tail with max_lines k returns exactly the last k
lines in original order when 1 <= k < N (the data model fixes max_lines
positive), and returns the whole decoded content, whose line list is
exactly the N lines and is never padded, when N <= k. -/
theorem c3_small_file_tail (fs : FileSys) (file_path : String) (content : List Nat)
    (k : Nat) (lines : List (List Nat))
    (hfs : fs file_path = some (.file content none))
    (hsmall : content.length < 1024 * 1024)
    (hl : lines = pySplitlines (utf8DecodeReplace content)) :
    (1 ≤ k → k < lines.length →
      (read_error_file fs file_path k).result =
        .text (joinNL (lines.drop (lines.length - k))) ∧
      (lines.drop (lines.length - k)).length = k) ∧
    (lines.length ≤ k →
      (read_error_file fs file_path k).result = .text (utf8DecodeReplace content) ∧
      pySplitlines (utf8DecodeReplace content) = lines) := by
  subst hl
  constructor
  · intro hk hlt
    constructor
    · simp only [read_error_file, hfs, hsmall, if_true, hlt]
      rw [pyLastSlice_pos k _ (by omega)]
    · simp
      omega
  · intro hge
    have hnlt : ¬ (k < (pySplitlines (utf8DecodeReplace content)).length) := by omega
    simp [read_error_file, hfs, hsmall, hnlt]

/-- Claim C9: when max_lines is 0 and the file below the threshold has at
least one line, tail returns every line of the file, because the Python
slice lines[-0:] selects the whole list (pyLastSlice 0 is the identity);
hence the bound of at most max_lines result lines only holds for
max_lines at least 1. -/
theorem c9_zero_max_lines (fs : FileSys) (file_path : String) (content : List Nat)
    (hfs : fs file_path = some (.file content none))
    (hsmall : content.length < 1024 * 1024)
    (hne : pySplitlines (utf8DecodeReplace content) ≠ []) :
    (read_error_file fs file_path 0).result =
      .text (joinNL (pySplitlines (utf8DecodeReplace content))) ∧
    pyLastSlice 0 (pySplitlines (utf8DecodeReplace content)) =
      pySplitlines (utf8DecodeReplace content) ∧
    1 ≤ (pySplitlines (utf8DecodeReplace content)).length := by
  have hpos : 0 < (pySplitlines (utf8DecodeReplace content)).length :=
    List.length_pos.mpr hne
  refine ⟨?_, pyLastSlice_zero _, hpos⟩
  simp only [read_error_file, hfs, hsmall, if_true, hpos]
  rw [pyLastSlice_zero]

/-- Claim C6: tail on a nonexistent path returns NotFound and on an
existing non-regular-file path returns NotAFile, reading nothing in both
cases; on a fault-free regular file it always returns text, with invalid
start bytes decoded to the replacement character U+FFFD rather than
failing; ReadError arises only from an I/O fault of the file. -/
theorem c6_error_taxonomy (fs : FileSys) (file_path : String) (k : Nat) :
    (fs file_path = none →
      read_error_file fs file_path k = ⟨.notFound file_path, []⟩) ∧
    (fs file_path = some .dir →
      read_error_file fs file_path k = ⟨.notAFile file_path, []⟩) ∧
    (∀ content, fs file_path = some (.file content none) →
      ∃ s, (read_error_file fs file_path k).result = .text s) ∧
    (∀ m, (read_error_file fs file_path k).result = .readError m →
      ∃ content, fs file_path = some (.file content (some m))) ∧
    (∀ b rest, 128 ≤ b → b < 194 →
      utf8DecodeReplace (b :: rest) = 65533 :: utf8DecodeReplace rest) := by
  refine ⟨?_, ?_, ?_, ?_, fun b rest h1 h2 => utf8_badstart b rest h1 h2⟩
  · intro h; simp [read_error_file, h]
  · intro h; simp [read_error_file, h]
  · intro content h
    by_cases hsz : content.length < 1024 * 1024
    · by_cases hlt : k < (pySplitlines (utf8DecodeReplace content)).length
      · exact ⟨joinNL (pyLastSlice k (pySplitlines (utf8DecodeReplace content))),
          by simp [read_error_file, h, hsz, hlt]⟩
      · exact ⟨utf8DecodeReplace content, by simp [read_error_file, h, hsz, hlt]⟩
    · exact ⟨joinNL (pyLastSlice k
          (if k * 200 < content.length ∧
              pySplitlines (utf8DecodeReplace
                (content.drop (content.length - k * 200))) ≠ []
           then (pySplitlines (utf8DecodeReplace
                (content.drop (content.length - k * 200)))).drop 1
           else pySplitlines (utf8DecodeReplace
                (content.drop (content.length - k * 200))))),
        by simp [read_error_file, h, hsz]⟩
  · intro m h
    cases hfs : fs file_path with
    | none => simp [read_error_file, hfs] at h
    | some e =>
      cases e with
      | dir => simp [read_error_file, hfs] at h
      | file content fault =>
        cases fault with
        | some msg =>
          simp [read_error_file, hfs] at h
          subst h
          exact ⟨content, rfl⟩
        | none =>
          by_cases hsz : content.length < 1024 * 1024
          · by_cases hlt : k < (pySplitlines (utf8DecodeReplace content)).length
            · simp [read_error_file, hfs, hsz, hlt] at h
            · simp [read_error_file, hfs, hsz, hlt] at h
          · simp [read_error_file, hfs, hsz] at h

/-- Claim C8: the tail reader reads at most
max (1 MiB threshold) (max_lines * 200) bytes of file content into
memory on every input: a file below the threshold is read fully, and a
file at or above it is read only from the seek offset to the end, so the
bytes buffered are independent of the total file size. -/
theorem c8_bounded_read (fs : FileSys) (file_path : String) (k : Nat) :
    (read_error_file fs file_path k).readBytes.length ≤ max (1024 * 1024) (k * 200) ∧
    (∀ content, fs file_path = some (.file content none) →
      content.length < 1024 * 1024 →
      (read_error_file fs file_path k).readBytes = content) ∧
    (∀ content, fs file_path = some (.file content none) →
      1024 * 1024 ≤ content.length →
      (read_error_file fs file_path k).readBytes =
        content.drop (content.length - k * 200)) := by
  refine ⟨?_, ?_, ?_⟩
  · cases hfs : fs file_path with
    | none => simp [read_error_file, hfs]
    | some e =>
      cases e with
      | dir => simp [read_error_file, hfs]
      | file content fault =>
        cases fault with
        | some msg => simp [read_error_file, hfs]
        | none =>
          by_cases hsz : content.length < 1024 * 1024
          · have hrb : (read_error_file fs file_path k).readBytes = content := by
              by_cases hlt : k < (pySplitlines (utf8DecodeReplace content)).length
              · simp [read_error_file, hfs, hsz, hlt]
              · simp [read_error_file, hfs, hsz, hlt]
            rw [hrb]
            exact le_trans (le_of_lt hsz) (le_max_left _ _)
          · have hrb : (read_error_file fs file_path k).readBytes =
                content.drop (content.length - k * 200) := by
              simp [read_error_file, hfs, hsz]
            rw [hrb]
            refine le_trans ?_ (le_max_right (1024 * 1024) (k * 200))
            simp
            omega
  · intro content hfs hsz
    by_cases hlt : k < (pySplitlines (utf8DecodeReplace content)).length
    · simp [read_error_file, hfs, hsz, hlt]
    · simp [read_error_file, hfs, hsz, hlt]
  · intro content hfs hsz
    have hnlt : ¬ content.length < 1024 * 1024 := by omega
    simp [read_error_file, hfs, hnlt]

/-- Claim C4: for a regular file at or above the 1 MiB threshold with
max_lines k at least 1 (positive per the data model), tail reads the
window of k * 200 bytes from max (0) (size - window), discards the first
decoded line exactly when the window does not reach the start of the
file, and returns the last k lines of the remainder; consequently the
result is the newline join of a list of at most k lines that is a
contiguous suffix of the decoded lines of the whole file in original
order. -/
theorem c4_large_file_tail (fs : FileSys) (file_path : String) (content : List Nat)
    (k : Nat)
    (hfs : fs file_path = some (.file content none))
    (hlarge : 1024 * 1024 ≤ content.length)
    (hk : 1 ≤ k) :
    ∃ ls, (read_error_file fs file_path k).result = .text (joinNL ls) ∧
      (read_error_file fs file_path k).readBytes =
        content.drop (content.length - k * 200) ∧
      ls.length ≤ k ∧
      ls <:+ pySplitlines (utf8DecodeReplace content) ∧
      (k * 200 < content.length →
        ls = pyLastSlice k
          ((pySplitlines (utf8DecodeReplace
            (content.drop (content.length - k * 200)))).drop 1)) ∧
      (content.length ≤ k * 200 →
        ls = pyLastSlice k (pySplitlines (utf8DecodeReplace content))) := by
  have hns : ¬ content.length < 1024 * 1024 := by omega
  by_cases hwin : k * 200 < content.length
  · have htail : content.drop (content.length - k * 200) ≠ [] := by
      have : (content.drop (content.length - k * 200)).length =
          content.length - (content.length - k * 200) := by simp
      intro hnil
      rw [hnil] at this
      simp at this
      omega
    have hlines0 :
        pySplitlines (utf8DecodeReplace (content.drop (content.length - k * 200))) ≠ [] := by
      intro hnil
      have hdec : utf8DecodeReplace (content.drop (content.length - k * 200)) = [] :=
        (sl_eq_nil_iff _).mp hnil
      obtain ⟨b, rest, hbr⟩ := List.exists_cons_of_ne_nil htail
      rw [hbr] at hdec
      exact utf8_ne_nil b rest hdec
    have hcond : (k * 200 < content.length ∧
        pySplitlines (utf8DecodeReplace
          (content.drop (content.length - k * 200))) ≠ []) := ⟨hwin, hlines0⟩
    refine ⟨pyLastSlice k
        ((pySplitlines (utf8DecodeReplace
          (content.drop (content.length - k * 200)))).drop 1), ?_, ?_, ?_, ?_, ?_, ?_⟩
    · simp [read_error_file, hfs, hns, hcond]
    · simp [read_error_file, hfs, hns]
    · exact pyLastSlice_length_le k _ hk
    · exact (pyLastSlice_suffix k _).trans
        (utf8_drop_lines_suffix content (content.length - k * 200))
    · intro _; rfl
    · intro hle; omega
  · have hp0 : content.length - k * 200 = 0 := by omega
    have hcond : ¬ (k * 200 < content.length ∧
        pySplitlines (utf8DecodeReplace
          (content.drop (content.length - k * 200))) ≠ []) := by
      intro hcontra
      omega
    refine ⟨pyLastSlice k (pySplitlines (utf8DecodeReplace content)), ?_, ?_, ?_, ?_, ?_, ?_⟩
    · simp [read_error_file, hfs, hns, hp0, hwin]
    · simp [read_error_file, hfs, hns, hp0]
    · exact pyLastSlice_length_le k _ hk
    · exact pyLastSlice_suffix k _
    · intro hlt; omega
    · intro _; rfl

/-- Witness for claim C1 (amended) at the spec test command, a semicolon
followed by an rm invocation: the pattern is present and the executor
blocks without spawning. -/
theorem c1_blocked_amended_witness :
    ([';'] ∈ forbiddenPatterns ∧
      ∃ u v, u ++ ([';'] ++ v) = "; rm -rf /".toList) ∧
    (secure_shell_executor spawnAlways0 "; rm -rf /".toList false =
      (.blocked "; rm -rf /".toList, none) ∧
     ∃ u v, u ++ ([';'] ++ v) = renderResult (.blocked "; rm -rf /".toList)) :=
  ⟨⟨by decide, ⟨[], " rm -rf /".toList, by decide⟩⟩,
   c1_blocked_amended spawnAlways0 "; rm -rf /".toList [';'] (by decide)
     ⟨[], " rm -rf /".toList, by decide⟩⟩

/-- Witness for claim C5 at the command echo hello under an oracle whose
child exits 0 with empty output. -/
theorem c5_outcome_classification_witness :
    (∀ p ∈ forbiddenPatterns, hasSub "echo hello".toList p = false) ∧
    pySplit "echo hello".toList ≠ [] ∧
    secure_shell_executor spawnAlways0 "echo hello".toList false =
      (.success [], some (pySplit "echo hello".toList)) :=
  ⟨by decide, by decide,
   (c5_outcome_classification spawnAlways0 "echo hello".toList (by decide)
     (by decide)).1 [] [] rfl⟩

/-- Witness for claim C7 at the command ls -l: the spawned argument
vector is the whitespace tokenization. -/
theorem c7_argv_is_split_witness :
    (secure_shell_executor spawnAlways0 "ls -l".toList false).2 =
      some [['l', 's'], ['-', 'l']] ∧
    ([['l', 's'], ['-', 'l']] = pySplit "ls -l".toList ∧
     ∀ t ∈ [['l', 's'], ['-', 'l']], t ≠ [] ∧ ∀ c ∈ t, pyIsSpace c = false) :=
  ⟨by decide,
   c7_argv_is_split spawnAlways0 "ls -l".toList [['l', 's'], ['-', 'l']] (by decide)⟩

/-- Witness for claim C10 at a two-space command. -/
theorem c10_whitespace_command_witness :
    (∀ c ∈ "  ".toList, pyIsSpace c = true) ∧
    secure_shell_executor spawnAlways0 "  ".toList false =
      (.executionError emptyArgvMessage, none) :=
  ⟨by decide, c10_whitespace_command spawnAlways0 "  ".toList (by decide)⟩

/-- Witness for claim C3 at a three-line file a, b, c with max_lines 2:
the last two lines come back in order. -/
theorem c3_small_file_tail_witness :
    (fsSmall "small.log" = some (.file [97, 10, 98, 10, 99] none) ∧
     ([97, 10, 98, 10, 99] : List Nat).length < 1024 * 1024 ∧
     ([[97], [98], [99]] : List (List Nat)) =
       pySplitlines (utf8DecodeReplace [97, 10, 98, 10, 99]) ∧
     1 ≤ 2 ∧ 2 < ([[97], [98], [99]] : List (List Nat)).length) ∧
    ((read_error_file fsSmall "small.log" 2).result =
      .text (joinNL (([[97], [98], [99]] : List (List Nat)).drop
        (([[97], [98], [99]] : List (List Nat)).length - 2))) ∧
     (([[97], [98], [99]] : List (List Nat)).drop
        (([[97], [98], [99]] : List (List Nat)).length - 2)).length = 2) :=
  ⟨⟨rfl, by decide, by decide, by decide, by decide⟩,
   (c3_small_file_tail fsSmall "small.log" [97, 10, 98, 10, 99] 2
     [[97], [98], [99]] rfl (by decide) (by decide)).1 (by decide) (by decide)⟩

/-- Witness for claim C9 at the same three-line file with max_lines 0:
every line is returned. -/
theorem c9_zero_max_lines_witness :
    (fsSmall "small.log" = some (.file [97, 10, 98, 10, 99] none) ∧
     ([97, 10, 98, 10, 99] : List Nat).length < 1024 * 1024 ∧
     pySplitlines (utf8DecodeReplace [97, 10, 98, 10, 99]) ≠ []) ∧
    ((read_error_file fsSmall "small.log" 0).result =
      .text (joinNL (pySplitlines (utf8DecodeReplace [97, 10, 98, 10, 99]))) ∧
     pyLastSlice 0 (pySplitlines (utf8DecodeReplace [97, 10, 98, 10, 99])) =
       pySplitlines (utf8DecodeReplace [97, 10, 98, 10, 99]) ∧
     1 ≤ (pySplitlines (utf8DecodeReplace [97, 10, 98, 10, 99])).length) :=
  ⟨⟨rfl, by decide, by decide⟩,
   c9_zero_max_lines fsSmall "small.log" [97, 10, 98, 10, 99] rfl
     (by decide) (by decide)⟩

/-- Witness for claim C6 at a missing path and at a directory path. -/
theorem c6_error_taxonomy_witness :
    (fsMixed "gone" = none ∧
      read_error_file fsMixed "gone" 3 = ⟨.notFound "gone", []⟩) ∧
    (fsMixed "adir" = some .dir ∧
      read_error_file fsMixed "adir" 3 = ⟨.notAFile "adir", []⟩) :=
  ⟨⟨rfl, (c6_error_taxonomy fsMixed "gone" 3).1 rfl⟩,
   ⟨rfl, (c6_error_taxonomy fsMixed "adir" 3).2.1 rfl⟩⟩

/-- Witness for claim C8 at the small fixture file: the file is read
fully. -/
theorem c8_bounded_read_witness :
    (fsSmall "small.log" = some (.file [97, 10, 98, 10, 99] none) ∧
     ([97, 10, 98, 10, 99] : List Nat).length < 1024 * 1024) ∧
    (read_error_file fsSmall "small.log" 3).readBytes = [97, 10, 98, 10, 99] :=
  ⟨⟨rfl, by decide⟩,
   (c8_bounded_read fsSmall "small.log" 3).2.1 [97, 10, 98, 10, 99] rfl (by decide)⟩

/-- Witness for claim C4 at a 1 MiB file of newlines with max_lines 1. -/
theorem c4_large_file_tail_witness :
    (fsBig "big.log" = some (.file (List.replicate 1048576 10) none) ∧
     1024 * 1024 ≤ (List.replicate 1048576 10 : List Nat).length ∧
     1 ≤ 1) ∧
    (∃ ls, (read_error_file fsBig "big.log" 1).result = .text (joinNL ls) ∧
      (read_error_file fsBig "big.log" 1).readBytes =
        (List.replicate 1048576 10 : List Nat).drop
          ((List.replicate 1048576 10 : List Nat).length - 1 * 200) ∧
      ls.length ≤ 1 ∧
      ls <:+ pySplitlines (utf8DecodeReplace (List.replicate 1048576 10)) ∧
      (1 * 200 < (List.replicate 1048576 10 : List Nat).length →
        ls = pyLastSlice 1
          ((pySplitlines (utf8DecodeReplace
            ((List.replicate 1048576 10 : List Nat).drop
              ((List.replicate 1048576 10 : List Nat).length - 1 * 200)))).drop 1)) ∧
      ((List.replicate 1048576 10 : List Nat).length ≤ 1 * 200 →
        ls = pyLastSlice 1 (pySplitlines (utf8DecodeReplace
          (List.replicate 1048576 10))))) :=
  ⟨⟨rfl, by rw [List.length_replicate], by decide⟩,
   c4_large_file_tail fsBig "big.log" (List.replicate 1048576 10) 1 rfl
     (by rw [List.length_replicate]) (by decide)⟩
